import Mathlib

/-
Shallow embedding of the neostr graph-ingestion program
(package lib: graph.go, util.go, the schema/worker module) and a
verification of its specified properties.

Go maps are embedded as association lists with first-occurrence lookup;
Go's Set[string] is embedded as a duplicate-free insertion-ordered list;
Go panics of fallible constructors become Except results.
-/

namespace NeoStr

/-- Left-biased alternative on options: the first argument wins when present. -/
def oalt {α : Type} (a b : Option α) : Option α :=
  match a with
  | some v => some v
  | none => b

/-- Lookup in an association list (embeds reading a Go map). -/
def alookup {κ β : Type} [DecidableEq κ] : List (κ × β) → κ → Option β
  | [], _ => none
  | (k', v) :: rest, k => if k' = k then some v else alookup rest k

/-- Rewrite the value stored at a key of an association list, leaving
every other entry unchanged (embeds updating a Go map entry in place). -/
def aupdate {κ β : Type} [DecidableEq κ] : List (κ × β) → κ → (β → β) → List (κ × β)
  | [], _, _ => []
  | (k', v) :: rest, k, f =>
    if k' = k then (k', f v) :: rest else (k', v) :: aupdate rest k f

/-- Decidable equality for Except, needed to evaluate closed statements
about the embedded fallible operations. -/
instance {ε α : Type} [DecidableEq ε] [DecidableEq α] : DecidableEq (Except ε α) := fun x y =>
  match x, y with
  | .ok a, .ok b =>
    if h : a = b then .isTrue (by rw [h])
    else .isFalse (by intro hc; exact h (Except.ok.inj hc))
  | .error a, .error b =>
    if h : a = b then .isTrue (by rw [h])
    else .isFalse (by intro hc; exact h (Except.error.inj hc))
  | .ok _, .error _ => .isFalse (by intro hc; exact Except.noConfusion hc)
  | .error _, .ok _ => .isFalse (by intro hc; exact Except.noConfusion hc)

/-- Property values: the dynamically-typed scalars and arrays this program
actually stores under `any` (strings, integers, lists of strings). -/
inductive Value : Type where
  | str : String → Value
  | int : Int → Value
  | strs : List String → Value
deriving DecidableEq

/-- Properties represents a map of node or relationship props
(Go `map[string]any`). -/
abbrev Properties : Type := List (String × Value)

/-- Go map assignment `props[key] = value`: replace the entry at the key
or add it. -/
def propSet : Properties → String → Value → Properties
  | [], k, v => [(k, v)]
  | (k', v') :: rest, k, v =>
    if k' = k then (k, v) :: rest else (k', v') :: propSet rest k v

/-- Modelled from the spec: the property-map union performed by the store
on `SET n += node` — "overwrites its property set with the union of
existing and incoming properties (incoming wins on conflicting keys)".
The Cypher execution itself is outside this repository. -/
def punion (old incoming : Properties) : Properties :=
  incoming ++ old.filter (fun kv => (alookup incoming kv.1).isNone)

/-- Byte-wise lexicographic string comparison, the order used by Go's
sort.Strings on the ASCII label and key strings of this program. -/
def lexLe : List Char → List Char → Bool
  | [], _ => true
  | _ :: _, [] => false
  | a :: as, b :: bs =>
    if a.toNat < b.toNat then true
    else if b.toNat < a.toNat then false
    else lexLe as bs

/-- Comparison on String used to embed sort.Strings. -/
def strLe (a b : String) : Bool := lexLe a.data b.data

/-- Insert a string into an already sorted list of strings. -/
def insertSorted (x : String) : List String → List String
  | [] => [x]
  | y :: ys => if strLe x y then x :: y :: ys else y :: insertSorted x ys

/-- sort.Strings: sorts a list of strings in lexicographic order
(insertion sort; the source relies only on the resulting order). -/
def sortStrings (l : List String) : List String := l.foldr insertSorted []

/-- Splitting loop over the characters of a string, accumulating the
current field in reverse. -/
def splitCharAux (sep : Char) : List Char → List Char → List (List Char)
  | [], acc => [acc.reverse]
  | c :: cs, acc =>
    if c = sep then acc.reverse :: splitCharAux sep cs []
    else splitCharAux sep cs (c :: acc)

/-- strings.Split with a one-character separator, as used by
DeserializeNodeKey and DeserializeRelKey. -/
def splitOnChar (sep : Char) (s : String) : List String :=
  (splitCharAux sep s.data []).map (fun cs => ⟨cs⟩)

/-- Character-list form of strings.Join with a one-character separator. -/
def joinCharData (sep : Char) : List (List Char) → List Char
  | [] => []
  | [x] => x
  | x :: y :: xs => x ++ sep :: joinCharData sep (y :: xs)

/-- strings.Join with a one-character separator. -/
def joinStrings (sep : Char) (xs : List String) : String :=
  ⟨joinCharData sep (xs.map (fun x => x.data))⟩

/-- MatchKeys: the mapping from a node label to the property keys used to
match nodes bearing that label in the database. -/
structure MatchKeys : Type where
  keys : List (String × List String)
deriving DecidableEq

/-- GetKeys returns the match property keys for a label; `none` embeds the
`found = false` case of the Go lookup. -/
def MatchKeys.GetKeys (p : MatchKeys) (label : String) : Option (List String) :=
  alookup p.keys label

/-- GetLabels returns the labels of the mapping. -/
def MatchKeys.GetLabels (p : MatchKeys) : List String :=
  p.keys.map (fun kv => kv.1)

/-- NewMatchKeys: the schema constants of this domain. -/
def NewMatchKeys : MatchKeys :=
  ⟨[("User", ["pubkey"]), ("Relay", ["url"]), ("Event", ["id"]), ("Tag", ["name", "value"])]⟩

/-- Node: a set of labels (duplicate-free insertion-ordered list) plus
properties. -/
structure Node : Type where
  Labels : List String
  Props : Properties
deriving DecidableEq

/-- NewNode creates a node with the given single label; a Go `nil`
properties argument is embedded as `none` and replaced by an empty map. -/
def NewNode (label : String) (props : Option Properties) : Node :=
  ⟨[label], props.getD []⟩

/-- The two error conditions of Node.MatchProps. -/
inductive MatchError : Type where
  | missingProperty (key label : String)
  | noRecognizedLabel (labels : List String)
deriving DecidableEq

/-- Inner loop of MatchProps: collect the property value for each match
key in order, failing on the first key the node lacks. -/
def collectMatchProps (props : Properties) (label : String) :
    List String → Except MatchError Properties
  | [] => .ok []
  | k :: ks =>
    match alookup props k with
    | some v => (collectMatchProps props label ks).map (fun rest => (k, v) :: rest)
    | none => .error (.missingProperty k label)

/-- Label scan of MatchProps: try each label in the given (sorted) order,
returning for the first label that has match keys; `allLabels` is the
node's label set reported by the no-recognized-label error. -/
def matchPropsLoop (mp : MatchKeys) (props : Properties) (allLabels : List String) :
    List String → Except MatchError (String × Properties)
  | [] => .error (.noRecognizedLabel allLabels)
  | label :: rest =>
    match mp.GetKeys label with
    | some keys => (collectMatchProps props label keys).map (fun p => (label, p))
    | none => matchPropsLoop mp props allLabels rest

/-- Node.MatchProps: the node's match label and match property values;
the label array is sorted before the scan. -/
def Node.MatchProps (n : Node) (mp : MatchKeys) : Except MatchError (String × Properties) :=
  matchPropsLoop mp n.Props n.Labels (sortStrings n.Labels)

/-- Relationship: type name, start node, end node, properties. The Go
field `Type` is spelled `type_` here because `Type` is reserved in Lean. -/
structure Relationship : Type where
  type_ : String
  Start : Node
  End : Node
  Props : Properties
deriving DecidableEq

/-- NewRelationship; a Go `nil` properties argument is embedded as `none`
and replaced by an empty map. -/
def NewRelationship (rtype : String) (start stop : Node) (props : Option Properties) :
    Relationship :=
  ⟨rtype, start, stop, props.getD []⟩

/-- The construction-time failure of relationship endpoint validation
(a Go panic). -/
inductive RelError : Type where
  | endpointLabelMismatch (role expected : String) (got : List String)
deriving DecidableEq

/-- validateNodeLabel: fails unless the node's label set contains the
expected label. -/
def validateNodeLabel (node : Node) (role expectedLabel : String) : Except RelError Unit :=
  if node.Labels.contains expectedLabel then .ok ()
  else .error (.endpointLabelMismatch role expectedLabel node.Labels)

/-- NewRelationshipWithValidation: validate the start label, then the end
label, then construct; a failed validation constructs nothing. -/
def NewRelationshipWithValidation (rtype startLabel endLabel : String)
    (start stop : Node) (props : Option Properties) : Except RelError Relationship :=
  match validateNodeLabel start "start" startLabel with
  | .error e => .error e
  | .ok _ =>
    match validateNodeLabel stop "end" endLabel with
    | .error e => .error e
    | .ok _ => .ok (NewRelationship rtype start stop props)

/-- NewUserNode. -/
def NewUserNode (pubkey : String) : Node :=
  NewNode "User" (some [("pubkey", .str pubkey)])

/-- NewRelayNode. -/
def NewRelayNode (url : String) : Node :=
  NewNode "Relay" (some [("url", .str url)])

/-- NewEventNode. -/
def NewEventNode (id : String) : Node :=
  NewNode "Event" (some [("id", .str id)])

/-- NewTagNode (the schema module declares a third `rest` parameter even
though the transformer calls it with two arguments; the call sites in
this file pass an empty rest). -/
def NewTagNode (name value : String) (rest : List String) : Node :=
  NewNode "Tag" (some [("name", .str name), ("value", .str value), ("rest", .strs rest)])

/-- NewSignedRel: SIGNED, User → Event. -/
def NewSignedRel (start stop : Node) (props : Option Properties) : Except RelError Relationship :=
  NewRelationshipWithValidation "SIGNED" "User" "Event" start stop props

/-- NewTaggedRel: TAGGED, Event → Tag. -/
def NewTaggedRel (start stop : Node) (props : Option Properties) : Except RelError Relationship :=
  NewRelationshipWithValidation "TAGGED" "Event" "Tag" start stop props

/-- NewReferencesEventRel: REFERENCES, Event → Event. -/
def NewReferencesEventRel (start stop : Node) (props : Option Properties) :
    Except RelError Relationship :=
  NewRelationshipWithValidation "REFERENCES" "Event" "Event" start stop props

/-- NewReferencesUserRel: REFERENCES, Event → User. -/
def NewReferencesUserRel (start stop : Node) (props : Option Properties) :
    Except RelError Relationship :=
  NewRelationshipWithValidation "REFERENCES" "Event" "User" start stop props

/-- Append an element to the bucket stored at a key, creating the bucket
when the key is new (embeds the check-then-append pattern of AddNode and
AddRel on the Go bucket maps). -/
def appendBucket {α : Type} : List (String × List α) → String → α → List (String × List α)
  | [], k, x => [(k, [x])]
  | (k', xs) :: rest, k, x =>
    if k' = k then (k', xs ++ [x]) :: rest else (k', xs) :: appendBucket rest k x

/-- createNodeSortKey: match label, a colon, then the sorted comma-joined
label set. -/
def createNodeSortKey (matchLabel : String) (labels : List String) : String :=
  matchLabel ++ ":" ++ joinStrings ',' (sortStrings labels)

/-- createRelSortKey: type, start label and end label joined by commas. -/
def createRelSortKey (rtype startLabel endLabel : String) : String :=
  joinStrings ',' [rtype, startLabel, endLabel]

/-- DeserializeNodeKey: split on the colon (exactly two parts, otherwise
the Go code panics, embedded as `none`), then split the labels on commas. -/
def DeserializeNodeKey (sortKey : String) : Option (String × List String) :=
  match splitOnChar ':' sortKey with
  | [matchLabel, serializedLabels] => some (matchLabel, splitOnChar ',' serializedLabels)
  | _ => none

/-- DeserializeRelKey: split on commas into exactly three parts. -/
def DeserializeRelKey (sortKey : String) : Option (String × String × String) :=
  match splitOnChar ',' sortKey with
  | [rtype, startLabel, endLabel] => some (rtype, startLabel, endLabel)
  | _ => none

/-- StructuredSubgraph: nodes and relationships grouped into buckets keyed
by their sort keys, plus the match-keys provider used to group them. -/
structure StructuredSubgraph : Type where
  nodes : List (String × List Node)
  rels : List (String × List Relationship)
  matchProvider : MatchKeys
deriving DecidableEq

/-- NewStructuredSubgraph: empty buckets. -/
def NewStructuredSubgraph (mp : MatchKeys) : StructuredSubgraph := ⟨[], [], mp⟩

/-- StructuredSubgraph.AddNode: resolve the node's match label (a failure
is a Go panic, embedded as an error), then append the node to the bucket
of its sort key. -/
def StructuredSubgraph.AddNode (s : StructuredSubgraph) (node : Node) :
    Except MatchError StructuredSubgraph :=
  match node.MatchProps s.matchProvider with
  | .error e => .error e
  | .ok (matchLabel, _) =>
    .ok { s with nodes := appendBucket s.nodes (createNodeSortKey matchLabel node.Labels) node }

/-- StructuredSubgraph.AddRel: resolve the match labels of both endpoints,
then append the relationship to the bucket of its sort key. -/
def StructuredSubgraph.AddRel (s : StructuredSubgraph) (rel : Relationship) :
    Except MatchError StructuredSubgraph :=
  match rel.Start.MatchProps s.matchProvider with
  | .error e => .error e
  | .ok (startLabel, _) =>
    match rel.End.MatchProps s.matchProvider with
    | .error e => .error e
    | .ok (endLabel, _) =>
      .ok { s with rels := appendBucket s.rels (createRelSortKey rel.type_ startLabel endLabel) rel }

/-- GetNodes: the bucket stored under a node sort key (empty when absent,
as the Go map read returns nil). -/
def StructuredSubgraph.GetNodes (s : StructuredSubgraph) (nodeKey : String) : List Node :=
  (alookup s.nodes nodeKey).getD []

/-- GetRels: the bucket stored under a relationship sort key. -/
def StructuredSubgraph.GetRels (s : StructuredSubgraph) (relKey : String) : List Relationship :=
  (alookup s.rels relKey).getD []

/-- NodeCount: total number of nodes across all buckets. -/
def StructuredSubgraph.NodeCount (s : StructuredSubgraph) : Nat :=
  (s.nodes.map (fun kv => kv.2.length)).sum

/-- RelCount: total number of relationships across all buckets. -/
def StructuredSubgraph.RelCount (s : StructuredSubgraph) : Nat :=
  (s.rels.map (fun kv => kv.2.length)).sum

/-- NodeKeys: the node sort keys present in the subgraph. -/
def StructuredSubgraph.NodeKeys (s : StructuredSubgraph) : List String :=
  s.nodes.map (fun kv => kv.1)

/-- RelKeys: the relationship sort keys present in the subgraph. -/
def StructuredSubgraph.RelKeys (s : StructuredSubgraph) : List String :=
  s.rels.map (fun kv => kv.1)

/-- Run a sequence of AddNode calls, stopping at the first failure
(the Go code panics there). -/
def addAllNodes (s : StructuredSubgraph) : List Node → Except MatchError StructuredSubgraph
  | [] => .ok s
  | n :: ns =>
    match s.AddNode n with
    | .error e => .error e
    | .ok s' => addAllNodes s' ns

/-- Concatenation of all buckets of a bucket map. -/
def bucketsFlatten {α : Type} (m : List (String × List α)) : List α :=
  m.foldr (fun kv acc => kv.2 ++ acc) []

/-- Modelled from the spec: the match signature of an incoming node — the
values of its match-key properties, the predicate the emitted MERGE
matches on. -/
def nodeSig (matchKeys : List String) (p : Properties) : List (Option Value) :=
  matchKeys.map (alookup p)

/-- Modelled from the spec: a store node is identified by its full label
set together with its match-key values (the store bootstrap provisions
uniqueness over the match keys). -/
abbrev StoreKey : Type := List String × List (Option Value)

/-- Modelled from the spec: the graph store reached by mergeNodes, one
entry per distinct store key. -/
abbrev Store : Type := List (StoreKey × Properties)

/-- Modelled from the spec: the store effect of one node of the bulk
operation emitted by mergeNodes — merge (create-if-absent, matched on the
match-key property values, bearing the bucket's full label set), then
overwrite the property set with the union of existing and incoming
properties, incoming winning. The Cypher execution is external to this
repository; the query text mergeNodes builds is UNWIND / MERGE / SET. -/
def mergeOneNode (matchKeys labels : List String) (store : Store) (q : Properties) : Store :=
  let key : StoreKey := (labels, nodeSig matchKeys q)
  match alookup store key with
  | some _ => aupdate store key (fun old => punion old q)
  | none => store ++ [(key, q)]

/-- Modelled from the spec: flushing one node bucket — every node of the
batch is merged in order by the single bulk operation. -/
def flushNodes (matchKeys labels : List String) (store : Store) (batch : List Properties) :
    Store :=
  batch.foldl (mergeOneNode matchKeys labels) store

/-- Specification vocabulary: the store key an incoming node of a bucket
addresses. -/
def keyOf (matchKeys labels : List String) (q : Properties) : StoreKey :=
  (labels, nodeSig matchKeys q)

/-- Specification vocabulary: the properties of a store entry after it
absorbs one incoming node (created from the incoming properties when
absent, otherwise the incoming-wins union). -/
def absorbQ (base : Option Properties) (q : Properties) : Option Properties :=
  some (match base with
    | some p => punion p q
    | none => q)

/-- The record shape consumed by the transformer (the external nostr.Event
collaborator): identifier, author, creation time, kind, content, tags. -/
structure NostrEvent : Type where
  ID : String
  PubKey : String
  CreatedAt : Int
  Kind : Int
  Content : String
  Tags : List (List String)
deriving DecidableEq

/-- The zero value `nostr.Event{}` the decode loop starts each iteration
with. -/
def zeroEvent : NostrEvent := ⟨"", "", 0, 0, "", []⟩

/-- ASCII whitespace as trimmed by strings.TrimSpace on this input. -/
def isGoSpace (c : Char) : Bool :=
  c = ' ' || c = '\t' || c = '\n' || c = '\r'

/-- strings.TrimSpace restricted to ASCII whitespace. -/
def trimSpace (s : String) : String :=
  ⟨((s.data.dropWhile isGoSpace).reverse.dropWhile isGoSpace).reverse⟩

/-- The line loop of ImportEvents: stop once the index exceeds 10000, skip
blank lines, decode each remaining line (json.Unmarshal is external and is
a parameter here), log-and-forward the zero-valued event when decoding
fails — the loop body has no skip on the decode-error branch — and forward
the decoded event otherwise. The returned list is what is sent downstream. -/
def importForward (decode : String → Option NostrEvent) :
    List String → Nat → List NostrEvent
  | [], _ => []
  | line :: rest, i =>
    if 10000 < i then []
    else
      if trimSpace line = "" then importForward decode rest (i + 1)
      else
        (match decode (trimSpace line) with
          | some e => e
          | none => zeroEvent) :: importForward decode rest (i + 1)

/-- ImportEvents' source stage on the lines of the input file. -/
def ImportEvents (decode : String → Option NostrEvent) (lines : List String) :
    List NostrEvent :=
  importForward decode lines 0

/-- Subgraph: flat insertion-ordered nodes and relationships. -/
structure Subgraph : Type where
  nodes : List Node
  rels : List Relationship
deriving DecidableEq

/-- NewSubgraph: empty. -/
def NewSubgraph : Subgraph := ⟨[], []⟩

/-- Subgraph.AddNode. -/
def Subgraph.AddNode (s : Subgraph) (n : Node) : Subgraph :=
  { s with nodes := s.nodes ++ [n] }

/-- Subgraph.AddRel. -/
def Subgraph.AddRel (s : Subgraph) (r : Relationship) : Subgraph :=
  { s with rels := s.rels ++ [r] }

/-- The tag loop of ParseEvents: each tag with at least two elements
yields a Tag node and a TAGGED relationship from the event node. -/
def buildTagEntities (eventNode : Node) :
    List (List String) → Except RelError (List Node × List Relationship)
  | [] => .ok ([], [])
  | tag :: rest =>
    match tag with
    | name :: value :: _ =>
      match NewTaggedRel eventNode (NewTagNode name value []) none with
      | .error e => .error e
      | .ok tagRel =>
        match buildTagEntities eventNode rest with
        | .error e => .error e
        | .ok (ns, rs) => .ok (NewTagNode name value [] :: ns, tagRel :: rs)
    | _ => buildTagEntities eventNode rest

/-- The per-record body of ParseEvents: build the User and Event nodes,
the SIGNED relationship, then the tag entities, collected in the order the
Go code adds them to the subgraph. -/
def buildSubgraph (event : NostrEvent) : Except RelError Subgraph :=
  let userNode := NewUserNode event.PubKey
  let eventNode0 := NewEventNode event.ID
  let eventNode : Node :=
    { eventNode0 with
      Props := propSet (propSet (propSet eventNode0.Props
        "created_at" (.int event.CreatedAt)) "kind" (.int event.Kind))
        "content" (.str event.Content) }
  match NewSignedRel userNode eventNode none with
  | .error e => .error e
  | .ok authorRel =>
    match buildTagEntities eventNode event.Tags with
    | .error e => .error e
    | .ok (tagNodes, tagRels) =>
      .ok ⟨[userNode, eventNode] ++ tagNodes, [authorRel] ++ tagRels⟩

/-- Observable events of the merge stage: one `add` per AddNode call, one
`flushed` per flush of the accumulator. -/
inductive MergeEv : Type where
  | add : MergeEv
  | flushed : MergeEv
deriving DecidableEq

/-- Add the nodes of one drained Subgraph to the accumulator, recording an
`add` event per successful AddNode call. -/
def addNodesTraced (s : StructuredSubgraph) (tr : List MergeEv) :
    List Node → Except MatchError (StructuredSubgraph × List MergeEv)
  | [] => .ok (s, tr)
  | n :: ns =>
    match s.AddNode n with
    | .error e => .error e
    | .ok s' => addNodesTraced s' (tr ++ [.add]) ns

/-- One iteration of MergeEntities' channel loop: drain one Subgraph's
nodes into the accumulator, then flush and replace the accumulator with an
empty one when NodeCount exceeds the threshold. The relationship path is
omitted: AddRel neither changes NodeCount nor takes part in the flush
condition. -/
def mergeStep (threshold : Nat) (mp : MatchKeys)
    (acc : StructuredSubgraph × List MergeEv) (sg : List Node) :
    Except MatchError (StructuredSubgraph × List MergeEv) :=
  match addNodesTraced acc.1 acc.2 sg with
  | .error e => .error e
  | .ok (s, tr) =>
    if threshold < s.NodeCount then .ok (NewStructuredSubgraph mp, tr ++ [.flushed])
    else .ok (s, tr)

/-- MergeEntities' channel loop over the incoming Subgraphs. -/
def mergeLoop (threshold : Nat) (mp : MatchKeys) :
    List (List Node) → StructuredSubgraph × List MergeEv →
    Except MatchError (StructuredSubgraph × List MergeEv)
  | [], acc => .ok acc
  | sg :: sgs, acc =>
    match mergeStep threshold mp acc sg with
    | .error e => .error e
    | .ok acc' => mergeLoop threshold mp sgs acc'

/-- MergeEntities: start from an empty accumulator, drain every Subgraph,
then perform the final unconditional flush. -/
def MergeEntities (threshold : Nat) (mp : MatchKeys) (sgs : List (List Node)) :
    Except MatchError (StructuredSubgraph × List MergeEv) :=
  match mergeLoop threshold mp sgs (NewStructuredSubgraph mp, []) with
  | .error e => .error e
  | .ok (s, tr) => .ok (s, tr ++ [.flushed])

/-- Number of flush events occurring in a trace strictly before the k-th
add event (1-indexed). -/
def flushesBeforeAdd : Nat → List MergeEv → Nat
  | _, [] => 0
  | 0, _ => 0
  | Nat.succ k, MergeEv.add :: tr => if k = 0 then 0 else flushesBeforeAdd k tr
  | k, MergeEv.flushed :: tr => 1 + flushesBeforeAdd k tr

/-- The trace MergeEntities' loop produces on single-node subgraphs,
starting from accumulator count `c` with `m` subgraphs remaining. -/
def buildTrace (threshold : Nat) : Nat → Nat → List MergeEv
  | _, 0 => []
  | c, Nat.succ m =>
    if threshold < c + 1 then MergeEv.add :: MergeEv.flushed :: buildTrace threshold 0 m
    else MergeEv.add :: buildTrace threshold (c + 1) m

/-- Specification vocabulary: the first label of the sorted label scan
that has a registry entry. -/
def firstRegisteredLabel (mp : MatchKeys) (labels : List String) : Option String :=
  (sortStrings labels).find? (fun l => (mp.GetKeys l).isSome)

theorem oalt_assoc {α : Type} (a b c : Option α) :
    oalt (oalt a b) c = oalt a (oalt b c) := by
  cases a <;> cases b <;> rfl

theorem oalt_none_right {α : Type} (a : Option α) : oalt a none = a := by
  cases a <;> rfl

theorem oalt_idem {α : Type} (a : Option α) : oalt a a = a := by
  cases a <;> rfl

theorem char_eq_of_toNat_eq {a b : Char} (h : a.toNat = b.toNat) : a = b := by
  have h2 : a.val = b.val := by
    unfold Char.toNat at h
    exact UInt32.toNat.inj h
  exact Char.eq_of_val_eq h2

theorem lexLe_cons_iff (x y : Char) (xs ys : List Char) :
    lexLe (x :: xs) (y :: ys) = true ↔
      (x.toNat < y.toNat ∨ (x.toNat = y.toNat ∧ lexLe xs ys = true)) := by
  by_cases h1 : x.toNat < y.toNat
  · simp [lexLe, h1]
  · by_cases h2 : y.toNat < x.toNat
    · constructor
      · intro h; simp [lexLe, h1, h2] at h
      · intro h; rcases h with h | ⟨h, _⟩ <;> omega
    · have he : x.toNat = y.toNat := by omega
      simp [lexLe, h1, h2, he]

theorem lexLe_total (a b : List Char) : lexLe a b = true ∨ lexLe b a = true := by
  induction a generalizing b with
  | nil => exact Or.inl rfl
  | cons x xs ih =>
    cases b with
    | nil => exact Or.inr rfl
    | cons y ys =>
      by_cases h1 : x.toNat < y.toNat
      · exact Or.inl ((lexLe_cons_iff x y xs ys).mpr (Or.inl h1))
      · by_cases h2 : y.toNat < x.toNat
        · exact Or.inr ((lexLe_cons_iff y x ys xs).mpr (Or.inl h2))
        · have he : x.toNat = y.toNat := by omega
          rcases ih ys with h | h
          · exact Or.inl ((lexLe_cons_iff x y xs ys).mpr (Or.inr ⟨he, h⟩))
          · exact Or.inr ((lexLe_cons_iff y x ys xs).mpr (Or.inr ⟨he.symm, h⟩))

theorem lexLe_trans (a b c : List Char) (hab : lexLe a b = true)
    (hbc : lexLe b c = true) : lexLe a c = true := by
  induction a generalizing b c with
  | nil => rfl
  | cons x xs ih =>
    cases b with
    | nil => simp [lexLe] at hab
    | cons y ys =>
      cases c with
      | nil => simp [lexLe] at hbc
      | cons z zs =>
        rcases (lexLe_cons_iff x y xs ys).mp hab with h1 | ⟨h1, h1'⟩ <;>
          rcases (lexLe_cons_iff y z ys zs).mp hbc with h2 | ⟨h2, h2'⟩
        · exact (lexLe_cons_iff x z xs zs).mpr (Or.inl (by omega))
        · exact (lexLe_cons_iff x z xs zs).mpr (Or.inl (by omega))
        · exact (lexLe_cons_iff x z xs zs).mpr (Or.inl (by omega))
        · exact (lexLe_cons_iff x z xs zs).mpr (Or.inr ⟨by omega, ih ys zs h1' h2'⟩)

theorem lexLe_antisymm (a b : List Char) (hab : lexLe a b = true)
    (hba : lexLe b a = true) : a = b := by
  induction a generalizing b with
  | nil =>
    cases b with
    | nil => rfl
    | cons y ys => simp [lexLe] at hba
  | cons x xs ih =>
    cases b with
    | nil => simp [lexLe] at hab
    | cons y ys =>
      rcases (lexLe_cons_iff x y xs ys).mp hab with h1 | ⟨h1, h1'⟩ <;>
        rcases (lexLe_cons_iff y x ys xs).mp hba with h2 | ⟨h2, h2'⟩
      · omega
      · omega
      · omega
      · rw [char_eq_of_toNat_eq h1, ih ys h1' h2']

theorem strLe_total (a b : String) : strLe a b = true ∨ strLe b a = true :=
  lexLe_total a.data b.data

theorem strLe_trans {a b c : String} (hab : strLe a b = true)
    (hbc : strLe b c = true) : strLe a c = true :=
  lexLe_trans a.data b.data c.data hab hbc

theorem strLe_antisymm (a b : String) (hab : strLe a b = true)
    (hba : strLe b a = true) : a = b := by
  have h := lexLe_antisymm a.data b.data hab hba
  cases a
  cases b
  exact congrArg String.mk h

theorem insertSorted_perm (x : String) (l : List String) :
    (insertSorted x l).Perm (x :: l) := by
  induction l with
  | nil => exact List.Perm.refl _
  | cons y ys ih =>
    by_cases h : strLe x y = true
    · simp [insertSorted, h]
    · simp only [insertSorted, if_neg h]
      exact (ih.cons y).trans (List.Perm.swap x y ys)

theorem sortStrings_perm (l : List String) : (sortStrings l).Perm l := by
  induction l with
  | nil => exact List.Perm.refl _
  | cons x xs ih => exact (insertSorted_perm x (sortStrings xs)).trans (ih.cons x)

theorem insertSorted_sorted (x : String) (l : List String)
    (h : l.Sorted (fun a b => strLe a b = true)) :
    (insertSorted x l).Sorted (fun a b => strLe a b = true) := by
  induction l with
  | nil => simp [insertSorted]
  | cons y ys ih =>
    rcases List.sorted_cons.mp h with ⟨hy, hys⟩
    by_cases hxy : strLe x y = true
    · simp only [insertSorted, if_pos hxy]
      refine List.sorted_cons.mpr ⟨?_, h⟩
      intro b hb
      rcases List.mem_cons.mp hb with hb | hb
      · subst hb; exact hxy
      · exact strLe_trans hxy (hy b hb)
    · simp only [insertSorted, if_neg hxy]
      refine List.sorted_cons.mpr ⟨?_, ih hys⟩
      intro b hb
      rcases List.mem_cons.mp ((insertSorted_perm x ys).mem_iff.mp hb) with hb | hb
      · rcases strLe_total x y with h' | h'
        · exact absurd h' hxy
        · rw [hb]; exact h'
      · exact hy b hb

theorem sortStrings_sorted (l : List String) :
    (sortStrings l).Sorted (fun a b => strLe a b = true) := by
  induction l with
  | nil => simp [sortStrings]
  | cons x xs ih => exact insertSorted_sorted x (sortStrings xs) ih

theorem sortStrings_eq_of_perm {l1 l2 : List String} (h : l1.Perm l2) :
    sortStrings l1 = sortStrings l2 :=
  @List.eq_of_perm_of_sorted _ _ ⟨strLe_antisymm⟩ _ _
    ((sortStrings_perm l1).trans (h.trans (sortStrings_perm l2).symm))
    (sortStrings_sorted l1) (sortStrings_sorted l2)

/-- C10: NewNode with nil properties yields a node with a usable empty
property map (and the singleton label set), and NewRelationship with nil
properties yields a relationship with a usable empty property map, so
subsequent property reads and writes on the returned entity are defined. -/
theorem nil_props_normalized :
    ∀ (label rtype : String) (start stop : Node),
      (NewNode label none).Props = [] ∧ (NewNode label none).Labels = [label] ∧
      (NewRelationship rtype start stop none).Props = [] := by
  intro label rtype start stop
  exact ⟨rfl, rfl, rfl⟩

/-- C7: relationship construction validates the declared endpoint labels
against the actual node label sets: a start node lacking the declared
start label fails with the start EndpointLabelMismatch and constructs
nothing, a valid start with an end node lacking the declared end label
fails with the end EndpointLabelMismatch, and a successful construction
implies both label containments and yields exactly NewRelationship. -/
theorem relationship_endpoint_validation :
    ∀ (rtype startLabel endLabel : String) (start stop : Node) (props : Option Properties),
      (startLabel ∉ start.Labels →
        NewRelationshipWithValidation rtype startLabel endLabel start stop props =
          .error (.endpointLabelMismatch "start" startLabel start.Labels)) ∧
      (startLabel ∈ start.Labels → endLabel ∉ stop.Labels →
        NewRelationshipWithValidation rtype startLabel endLabel start stop props =
          .error (.endpointLabelMismatch "end" endLabel stop.Labels)) ∧
      (∀ r, NewRelationshipWithValidation rtype startLabel endLabel start stop props = .ok r →
        startLabel ∈ start.Labels ∧ endLabel ∈ stop.Labels ∧
        r = NewRelationship rtype start stop props) := by
  intro rtype sl el s t props
  refine ⟨?_, ?_, ?_⟩
  · intro h
    simp [NewRelationshipWithValidation, validateNodeLabel, h]
  · intro h1 h2
    simp [NewRelationshipWithValidation, validateNodeLabel, h1, h2]
  · intro r hr
    by_cases h1 : sl ∈ s.Labels
    · by_cases h2 : el ∈ t.Labels
      · simp [NewRelationshipWithValidation, validateNodeLabel, h1, h2] at hr
        exact ⟨h1, h2, hr.symm⟩
      · simp [NewRelationshipWithValidation, validateNodeLabel, h1, h2] at hr
    · simp [NewRelationshipWithValidation, validateNodeLabel, h1] at hr

/-- Witness for C7: the concrete SIGNED construction whose start node
lacks the User label fails with the start EndpointLabelMismatch. -/
theorem relationship_endpoint_validation_witness :
    NewRelationshipWithValidation "SIGNED" "User" "Event"
      (NewNode "Event" none) (NewEventNode "x") none =
      .error (.endpointLabelMismatch "start" "User" ["Event"]) :=
  (relationship_endpoint_validation "SIGNED" "User" "Event"
    (NewNode "Event" none) (NewEventNode "x") none).1 (by decide)

theorem collectMatchProps_ok (props : Properties) (label : String) (keys : List String)
    (h : ∀ k ∈ keys, (alookup props k).isSome) :
    ∃ p, collectMatchProps props label keys = .ok p := by
  induction keys with
  | nil => exact ⟨[], rfl⟩
  | cons k ks ih =>
    have hk := h k (List.mem_cons_self k ks)
    rcases Option.isSome_iff_exists.mp hk with ⟨v, hv⟩
    rcases ih (fun k' hk' => h k' (List.mem_cons_of_mem k hk')) with ⟨p, hp⟩
    exact ⟨(k, v) :: p, by simp [collectMatchProps, hv, hp, Except.map]⟩

theorem collectMatchProps_error (props : Properties) (label : String) (keys : List String)
    (h : ∃ k ∈ keys, alookup props k = none) :
    ∃ k, k ∈ keys ∧ alookup props k = none ∧
      collectMatchProps props label keys = .error (.missingProperty k label) := by
  induction keys with
  | nil => simp at h
  | cons k ks ih =>
    cases hv : alookup props k with
    | none => exact ⟨k, List.mem_cons_self k ks, hv, by simp [collectMatchProps, hv]⟩
    | some v =>
      have h' : ∃ k' ∈ ks, alookup props k' = none := by
        rcases h with ⟨k', hk', hn⟩
        rcases List.mem_cons.mp hk' with hk' | hk'
        · rw [hk'] at hn; rw [hn] at hv; cases hv
        · exact ⟨k', hk', hn⟩
      rcases ih h' with ⟨k', hk', hn, hc⟩
      exact ⟨k', List.mem_cons_of_mem k hk', hn,
        by simp [collectMatchProps, hv, hc, Except.map]⟩

theorem matchPropsLoop_of_find_none (mp : MatchKeys) (props : Properties)
    (allLabels ls : List String)
    (h : ls.find? (fun l => (mp.GetKeys l).isSome) = none) :
    matchPropsLoop mp props allLabels ls = .error (.noRecognizedLabel allLabels) := by
  induction ls with
  | nil => rfl
  | cons l ls ih =>
    cases hg : mp.GetKeys l with
    | none =>
      have hpred : ((mp.GetKeys l).isSome : Bool) = false := by rw [hg]; rfl
      rw [List.find?_cons_of_neg _ (by simp [hpred])] at h
      simp [matchPropsLoop, hg, ih h]
    | some keys =>
      rw [List.find?_cons_of_pos _ (by simp [hg])] at h
      cases h

theorem matchPropsLoop_of_find_some (mp : MatchKeys) (props : Properties)
    (allLabels ls : List String) (lbl : String)
    (h : ls.find? (fun l => (mp.GetKeys l).isSome) = some lbl) :
    ∃ keys, mp.GetKeys lbl = some keys ∧
      matchPropsLoop mp props allLabels ls =
        (collectMatchProps props lbl keys).map (fun p => (lbl, p)) := by
  induction ls with
  | nil => cases h
  | cons l ls ih =>
    cases hg : mp.GetKeys l with
    | none =>
      have hpred : ((mp.GetKeys l).isSome : Bool) = false := by rw [hg]; rfl
      rw [List.find?_cons_of_neg _ (by simp [hpred])] at h
      rcases ih h with ⟨keys, hk, hl⟩
      exact ⟨keys, hk, by simp [matchPropsLoop, hg, hl]⟩
    | some keys =>
      rw [List.find?_cons_of_pos _ (by simp [hg])] at h
      cases h
      exact ⟨keys, hg, by simp [matchPropsLoop, hg]⟩

/-- C3: match-label resolution is deterministic — MatchProps scans the
labels in sorted order, a successful result is exactly the first label of
the sorted scan that has a registry entry together with the collected
values of that label's match keys, the successful result is invariant
under reordering of the label set, and the Event/Tag node with only Tag
registered yields Tag for both insertion orders. -/
theorem matchProps_deterministic :
    (∀ (props : Properties) (mp : MatchKeys) (ls1 ls2 : List String) (lbl : String)
        (p : Properties), ls1.Perm ls2 →
        Node.MatchProps ⟨ls1, props⟩ mp = .ok (lbl, p) →
        Node.MatchProps ⟨ls2, props⟩ mp = .ok (lbl, p)) ∧
    (∀ (n : Node) (mp : MatchKeys) (lbl : String) (p : Properties),
        n.MatchProps mp = .ok (lbl, p) →
        firstRegisteredLabel mp n.Labels = some lbl ∧
        ∃ keys, mp.GetKeys lbl = some keys ∧
          collectMatchProps n.Props lbl keys = .ok p) ∧
    ((Node.mk ["Event", "Tag"] [("name", .str "e"), ("value", .str "v")]).MatchProps
        ⟨[("Tag", ["name", "value"])]⟩ =
        .ok ("Tag", [("name", .str "e"), ("value", .str "v")]) ∧
      (Node.mk ["Tag", "Event"] [("name", .str "e"), ("value", .str "v")]).MatchProps
        ⟨[("Tag", ["name", "value"])]⟩ =
        .ok ("Tag", [("name", .str "e"), ("value", .str "v")])) := by
  have key : ∀ (n : Node) (mp : MatchKeys) (lbl : String) (p : Properties),
      n.MatchProps mp = .ok (lbl, p) →
      firstRegisteredLabel mp n.Labels = some lbl ∧
      ∃ keys, mp.GetKeys lbl = some keys ∧ collectMatchProps n.Props lbl keys = .ok p := by
    intro n mp lbl p h
    cases hf : (sortStrings n.Labels).find? (fun l => (mp.GetKeys l).isSome) with
    | none =>
      rw [Node.MatchProps, matchPropsLoop_of_find_none mp n.Props n.Labels _ hf] at h
      cases h
    | some lbl' =>
      rcases matchPropsLoop_of_find_some mp n.Props n.Labels _ lbl' hf with ⟨keys, hk, hl⟩
      rw [Node.MatchProps, hl] at h
      cases hc : collectMatchProps n.Props lbl' keys with
      | error e => rw [hc] at h; cases h
      | ok p' =>
        rw [hc] at h
        cases h
        exact ⟨hf, keys, hk, hc⟩
  refine ⟨?_, key, by decide, by decide⟩
  intro props mp ls1 ls2 lbl p hperm h
  rcases key ⟨ls1, props⟩ mp lbl p h with ⟨hf, keys, hk, hc⟩
  have hsort : sortStrings ls1 = sortStrings ls2 := sortStrings_eq_of_perm hperm
  have hf2 : (sortStrings ls2).find? (fun l => (mp.GetKeys l).isSome) = some lbl := by
    rw [← hsort]; exact hf
  rcases matchPropsLoop_of_find_some mp props ls2 _ lbl hf2 with ⟨keys2, hk2, hl2⟩
  rw [hk] at hk2
  cases hk2
  rw [Node.MatchProps, hl2, hc]
  rfl

/-- Witness for C3 applying the determinism theorem at the Event/Tag node
with only Tag registered, reordering the labels. -/
theorem matchProps_deterministic_witness :
    Node.MatchProps ⟨["Tag", "Event"], [("name", .str "e"), ("value", .str "v")]⟩
      ⟨[("Tag", ["name", "value"])]⟩ =
      .ok ("Tag", [("name", .str "e"), ("value", .str "v")]) :=
  matchProps_deterministic.1 [("name", .str "e"), ("value", .str "v")]
    ⟨[("Tag", ["name", "value"])]⟩ ["Event", "Tag"] ["Tag", "Event"] "Tag"
    [("name", .str "e"), ("value", .str "v")] (by decide) (by decide)

/-- C6: MatchProps fails with a MissingMatchProperty error when the first
registered label of the sorted scan lacks one of its required keys, fails
with a NoRecognizedLabel error when no label of the node is registered,
and succeeds in every other case. -/
theorem matchProps_error_conditions :
    ∀ (n : Node) (mp : MatchKeys),
      (firstRegisteredLabel mp n.Labels = none →
        n.MatchProps mp = .error (.noRecognizedLabel n.Labels)) ∧
      (∀ lbl keys, firstRegisteredLabel mp n.Labels = some lbl →
        mp.GetKeys lbl = some keys →
        ((∃ k ∈ keys, alookup n.Props k = none) →
          ∃ k, k ∈ keys ∧ alookup n.Props k = none ∧
            n.MatchProps mp = .error (.missingProperty k lbl)) ∧
        ((∀ k ∈ keys, (alookup n.Props k).isSome) →
          ∃ p, n.MatchProps mp = .ok (lbl, p))) := by
  intro n mp
  constructor
  · intro h
    exact matchPropsLoop_of_find_none mp n.Props n.Labels _ h
  · intro lbl keys hf hk
    rcases matchPropsLoop_of_find_some mp n.Props n.Labels _ lbl hf with ⟨keys', hk', hl⟩
    rw [hk] at hk'
    cases hk'
    constructor
    · intro hmiss
      rcases collectMatchProps_error n.Props lbl keys hmiss with ⟨k, hkmem, hkn, hc⟩
      exact ⟨k, hkmem, hkn, by rw [Node.MatchProps, hl, hc]; rfl⟩
    · intro hall
      rcases collectMatchProps_ok n.Props lbl keys hall with ⟨p, hc⟩
      exact ⟨p, by rw [Node.MatchProps, hl, hc]; rfl⟩

/-- Witness for C6 applying the error-condition theorem at a Tag node
missing its value property and at an unregistered-label node. -/
theorem matchProps_error_conditions_witness :
    (Node.mk ["Tag"] [("name", .str "e")]).MatchProps NewMatchKeys =
      .error (.missingProperty "value" "Tag") ∧
    (Node.mk ["Nope"] []).MatchProps NewMatchKeys =
      .error (.noRecognizedLabel ["Nope"]) := by
  constructor
  · rcases ((matchProps_error_conditions (Node.mk ["Tag"] [("name", .str "e")])
        NewMatchKeys).2 "Tag" ["name", "value"] (by decide) (by decide)).1
        ⟨"value", by decide, by decide⟩ with ⟨k, hk, hn, h⟩
    have : k = "value" := by
      rcases List.mem_cons.mp hk with h' | h'
      · rw [h'] at hn; cases hn
      · simpa using h'
    rw [this] at h
    exact h
  · exact (matchProps_error_conditions (Node.mk ["Nope"] []) NewMatchKeys).1 (by decide)

theorem string_mk_data (s : String) : (⟨s.data⟩ : String) = s := by
  cases s
  rfl

theorem splitCharAux_append (sep : Char) (cs rest acc : List Char) (h : sep ∉ cs) :
    splitCharAux sep (cs ++ rest) acc = splitCharAux sep rest (cs.reverse ++ acc) := by
  induction cs generalizing acc with
  | nil => simp
  | cons c cs ih =>
    have hc : ¬(c = sep) := by
      intro he
      exact h (he ▸ List.mem_cons_self c cs)
    simp only [List.cons_append, splitCharAux, if_neg hc, List.append_eq]
    rw [ih (c :: acc) (fun hm => h (List.mem_cons_of_mem c hm))]
    simp

theorem splitCharAux_join (sep : Char) (parts : List (List Char))
    (h : ∀ p ∈ parts, sep ∉ p) (hne : parts ≠ []) :
    splitCharAux sep (joinCharData sep parts) [] = parts := by
  induction parts with
  | nil => cases hne rfl
  | cons p parts ih =>
    cases parts with
    | nil =>
      show splitCharAux sep (joinCharData sep [p]) [] = [p]
      have hp : joinCharData sep [p] = p ++ [] := by simp [joinCharData]
      rw [hp, splitCharAux_append sep p [] [] (h p (List.mem_cons_self p []))]
      simp [splitCharAux]
    | cons q parts' =>
      have hstep : joinCharData sep (p :: q :: parts') =
          p ++ sep :: joinCharData sep (q :: parts') := rfl
      rw [hstep, splitCharAux_append sep p _ [] (h p (List.mem_cons_self p _))]
      simp only [splitCharAux, if_pos rfl]
      rw [ih (fun r hr => h r (List.mem_cons_of_mem p hr)) (by simp)]
      simp

theorem mem_joinCharData {sep c : Char} {parts : List (List Char)}
    (h : c ∈ joinCharData sep parts) : c = sep ∨ ∃ p ∈ parts, c ∈ p := by
  induction parts with
  | nil => cases h
  | cons p parts ih =>
    cases parts with
    | nil =>
      exact Or.inr ⟨p, List.mem_cons_self p [], h⟩
    | cons q parts' =>
      have hstep : joinCharData sep (p :: q :: parts') =
          p ++ sep :: joinCharData sep (q :: parts') := rfl
      rw [hstep] at h
      rcases List.mem_append.mp h with h | h
      · exact Or.inr ⟨p, List.mem_cons_self p _, h⟩
      · rcases List.mem_cons.mp h with h | h
        · exact Or.inl h
        · rcases ih h with h | ⟨r, hr, hcr⟩
          · exact Or.inl h
          · exact Or.inr ⟨r, List.mem_cons_of_mem p hr, hcr⟩

/-- C8: node group key round-trip — for every valid pair of a match label
and a sorted label set (the schema's delimiter-free nonempty labels),
DeserializeNodeKey applied to the key built by createNodeSortKey returns
the original match label and the original label set unchanged. -/
theorem node_key_roundtrip :
    ∀ (matchLabel : String) (labels : List String),
      sortStrings labels = labels → labels ≠ [] → ':' ∉ matchLabel.data →
      (∀ l ∈ labels, ':' ∉ l.data ∧ ',' ∉ l.data) →
      DeserializeNodeKey (createNodeSortKey matchLabel labels) =
        some (matchLabel, labels) := by
  intro ml labels hsort hne hml hlab
  have hJmem : ∀ c, c ∈ joinCharData ',' (labels.map (fun x => x.data)) →
      c = ',' ∨ ∃ l ∈ labels, c ∈ l.data := by
    intro c hc
    rcases mem_joinCharData hc with hc | ⟨p, hp, hcp⟩
    · exact Or.inl hc
    · rcases List.mem_map.mp hp with ⟨l, hl, hld⟩
      exact Or.inr ⟨l, hl, hld ▸ hcp⟩
  have hJ : ':' ∉ joinCharData ',' (labels.map (fun x => x.data)) := by
    intro hc
    rcases hJmem ':' hc with hc | ⟨l, hl, hcl⟩
    · cases hc
    · exact (hlab l hl).1 hcl
  have hkey : (createNodeSortKey ml labels).data =
      ml.data ++ ':' :: joinCharData ',' (labels.map (fun x => x.data)) := by
    show (ml ++ ":" ++ joinStrings ',' (sortStrings labels)).data = _
    rw [hsort, String.data_append, String.data_append]
    simp [joinStrings]
  have hsplit : splitOnChar ':' (createNodeSortKey ml labels) =
      [ml, ⟨joinCharData ',' (labels.map (fun x => x.data))⟩] := by
    rw [splitOnChar, hkey, splitCharAux_append ':' ml.data _ [] hml]
    simp only [splitCharAux, if_pos rfl]
    have : joinCharData ',' (labels.map (fun x => x.data)) ++ ([] : List Char) =
        joinCharData ',' (labels.map (fun x => x.data)) := by simp
    rw [← this, splitCharAux_append ':' _ [] [] hJ]
    simp [splitCharAux, string_mk_data]
  have hsplit2 : splitOnChar ',' (⟨joinCharData ',' (labels.map (fun x => x.data))⟩ : String) =
      labels := by
    rw [splitOnChar]
    show ((splitCharAux ',' (joinCharData ',' (labels.map (fun x => x.data))) []).map
      (fun cs => (⟨cs⟩ : String))) = labels
    rw [splitCharAux_join ',' (labels.map (fun x => x.data))
      (by
        intro p hp
        rcases List.mem_map.mp hp with ⟨l, hl, hld⟩
        exact hld ▸ (hlab l hl).2)
      (by simpa using hne)]
    rw [List.map_map]
    have : (fun cs => (⟨cs⟩ : String)) ∘ (fun x : String => x.data) = id := by
      funext s
      exact string_mk_data s
    rw [this, List.map_id]
  rw [DeserializeNodeKey, hsplit]
  show some (ml, splitOnChar ','
    (⟨joinCharData ',' (labels.map (fun x => x.data))⟩ : String)) = some (ml, labels)
  rw [hsplit2]

/-- Witness for C8 at the concrete Tag bucket key of an Event and Tag
labeled node. -/
theorem node_key_roundtrip_witness :
    DeserializeNodeKey (createNodeSortKey "Tag" ["Event", "Tag"]) =
      some ("Tag", ["Event", "Tag"]) :=
  node_key_roundtrip "Tag" ["Event", "Tag"] (by decide) (by decide) (by decide)
    (by decide)

theorem bucketsFlatten_cons {α : Type} (k : String) (xs : List α)
    (m : List (String × List α)) :
    bucketsFlatten ((k, xs) :: m) = xs ++ bucketsFlatten m := rfl

theorem appendBucket_flatten_perm {α : Type} (m : List (String × List α))
    (k : String) (x : α) :
    (bucketsFlatten (appendBucket m k x)).Perm (x :: bucketsFlatten m) := by
  induction m with
  | nil => exact List.Perm.refl _
  | cons kv m ih =>
    rcases kv with ⟨k', xs⟩
    by_cases h : k' = k
    · simp only [appendBucket, if_pos h, bucketsFlatten_cons, List.append_assoc,
        List.singleton_append]
      exact List.perm_middle
    · simp only [appendBucket, if_neg h, bucketsFlatten_cons]
      exact (ih.append_left xs).trans List.perm_middle

theorem appendBucket_keys_mem {α : Type} (m : List (String × List α)) (k a : String)
    (x : α) :
    a ∈ (appendBucket m k x).map (fun kv => kv.1) ↔
      (a ∈ m.map (fun kv => kv.1) ∨ a = k) := by
  induction m with
  | nil => simp [appendBucket]
  | cons kv m ih =>
    rcases kv with ⟨k', xs⟩
    by_cases h : k' = k
    · subst h
      simp [appendBucket]
      tauto
    · simp only [appendBucket, if_neg h, List.map_cons, List.mem_cons, ih]
      tauto

theorem appendBucket_keys_nodup {α : Type} (m : List (String × List α)) (k : String)
    (x : α) (h : (m.map (fun kv => kv.1)).Nodup) :
    ((appendBucket m k x).map (fun kv => kv.1)).Nodup := by
  induction m with
  | nil => simp [appendBucket]
  | cons kv m ih =>
    rcases kv with ⟨k', xs⟩
    rcases List.nodup_cons.mp h with ⟨hk', hm⟩
    by_cases hkk : k' = k
    · simp only [appendBucket, if_pos hkk, List.map_cons]
      exact List.nodup_cons.mpr ⟨hk', hm⟩
    · simp only [appendBucket, if_neg hkk, List.map_cons]
      refine List.nodup_cons.mpr ⟨?_, ih hm⟩
      intro hmem
      rcases (appendBucket_keys_mem m k k' x).mp hmem with hmem | hmem
      · exact hk' hmem
      · exact hkk hmem

theorem keys_lookup_flatten {α : Type} (m : List (String × List α))
    (h : (m.map (fun kv => kv.1)).Nodup) :
    ((m.map (fun kv => kv.1)).map (fun k => (alookup m k).getD [])).flatten =
      bucketsFlatten m := by
  induction m with
  | nil => rfl
  | cons kv m ih =>
    rcases kv with ⟨k, xs⟩
    rcases List.nodup_cons.mp h with ⟨hk, hm⟩
    simp only [List.map_cons, List.flatten_cons, bucketsFlatten_cons]
    congr 1
    · simp [alookup]
    · rw [← ih hm]
      congr 1
      apply List.map_congr_left
      intro a ha
      have hne : ¬(k = a) := by
        intro he
        exact hk (he ▸ ha)
      simp [alookup, hne]

theorem list_map_length_sum_eq_flatten_length {α : Type}
    (m : List (String × List α)) :
    (m.map (fun kv => kv.2.length)).sum = (bucketsFlatten m).length := by
  induction m with
  | nil => rfl
  | cons kv m ih =>
    rcases kv with ⟨k, xs⟩
    simp [bucketsFlatten_cons, ih]

theorem addNode_ok (s : StructuredSubgraph) (n : Node) (s' : StructuredSubgraph)
    (h : s.AddNode n = .ok s') :
    s'.matchProvider = s.matchProvider ∧ s'.rels = s.rels ∧
      ∃ key, s'.nodes = appendBucket s.nodes key n := by
  rw [StructuredSubgraph.AddNode] at h
  cases hm : n.MatchProps s.matchProvider with
  | error e => rw [hm] at h; cases h
  | ok lp =>
    rw [hm] at h
    cases h
    exact ⟨rfl, rfl, createNodeSortKey lp.1 n.Labels, rfl⟩

theorem addAllNodes_ok (ns : List Node) (s s' : StructuredSubgraph)
    (h : addAllNodes s ns = .ok s') :
    (bucketsFlatten s'.nodes).Perm (bucketsFlatten s.nodes ++ ns) ∧
      ((s.nodes.map (fun kv => kv.1)).Nodup → (s'.nodes.map (fun kv => kv.1)).Nodup) := by
  induction ns generalizing s with
  | nil =>
    cases h
    exact ⟨by simp, fun h => h⟩
  | cons n ns ih =>
    rw [addAllNodes] at h
    cases ha : s.AddNode n with
    | error e => rw [ha] at h; cases h
    | ok s1 =>
      rw [ha] at h
      rcases addNode_ok s n s1 ha with ⟨_, _, key, hnodes⟩
      rcases ih s1 h with ⟨hperm, hnodup⟩
      constructor
      · refine hperm.trans ?_
        have h1 : (bucketsFlatten s1.nodes).Perm (n :: bucketsFlatten s.nodes) := by
          rw [hnodes]; exact appendBucket_flatten_perm s.nodes key n
        refine (h1.append_right ns).trans ?_
        exact (List.perm_middle).symm
      · intro hd
        refine hnodup ?_
        rw [hnodes]
        exact appendBucket_keys_nodup s.nodes key n hd

/-- C2: grouping conservation — for every sequence of AddNode calls on a
fresh StructuredSubgraph that all succeed, NodeCount equals the number of
calls, and the concatenation of GetNodes over all keys of NodeKeys is a
permutation (multiset equality) of the added nodes: none is dropped or
duplicated across buckets. -/
theorem grouping_conservation :
    ∀ (mp : MatchKeys) (ns : List Node) (s' : StructuredSubgraph),
      addAllNodes (NewStructuredSubgraph mp) ns = .ok s' →
      s'.NodeCount = ns.length ∧
      ((s'.NodeKeys.map s'.GetNodes).flatten).Perm ns := by
  intro mp ns s' h
  rcases addAllNodes_ok ns (NewStructuredSubgraph mp) s' h with ⟨hperm, hnodup⟩
  have hperm' : (bucketsFlatten s'.nodes).Perm ns := hperm
  have hnodup' : (s'.nodes.map (fun kv => kv.1)).Nodup := hnodup List.nodup_nil
  constructor
  · rw [StructuredSubgraph.NodeCount, list_map_length_sum_eq_flatten_length]
    exact hperm'.length_eq
  · have hk := keys_lookup_flatten s'.nodes hnodup'
    show (((s'.nodes.map (fun kv => kv.1)).map
      (fun k => (alookup s'.nodes k).getD [])).flatten).Perm ns
    rw [hk]
    exact hperm'

/-- Witness for C2 at three concrete nodes landing in two buckets. -/
theorem grouping_conservation_witness :
    (StructuredSubgraph.mk
        [("User:User", [NewUserNode "a", NewUserNode "c"]),
          ("Event:Event", [NewEventNode "b"])] [] NewMatchKeys).NodeCount = 3 ∧
    (((StructuredSubgraph.mk
        [("User:User", [NewUserNode "a", NewUserNode "c"]),
          ("Event:Event", [NewEventNode "b"])] [] NewMatchKeys).NodeKeys.map
        (StructuredSubgraph.mk
          [("User:User", [NewUserNode "a", NewUserNode "c"]),
            ("Event:Event", [NewEventNode "b"])] [] NewMatchKeys).GetNodes).flatten).Perm
      [NewUserNode "a", NewEventNode "b", NewUserNode "c"] :=
  grouping_conservation NewMatchKeys [NewUserNode "a", NewEventNode "b", NewUserNode "c"]
    (StructuredSubgraph.mk
      [("User:User", [NewUserNode "a", NewUserNode "c"]),
        ("Event:Event", [NewEventNode "b"])] [] NewMatchKeys) (by decide)

theorem importForward_take (decode : String → Option NostrEvent)
    (lines : List String) (i : Nat) :
    importForward decode lines i = importForward decode (lines.take (10001 - i)) i := by
  induction lines generalizing i with
  | nil => simp
  | cons line rest ih =>
    by_cases h : 10000 < i
    · have h0 : 10001 - i = 0 := by omega
      rw [h0]
      simp [importForward, h]
    · have h1 : 10001 - i = (10001 - (i + 1)) + 1 := by omega
      rw [h1, List.take_succ_cons]
      by_cases hb : trimSpace line = ""
      · simp only [importForward, if_neg h, if_pos hb]
        exact ih (i + 1)
      · simp only [importForward, if_neg h, if_neg hb]
        rw [ih (i + 1)]

/-- C9 (corrected): the source stage processes at most the first 10001
lines of the record stream (line indices 0 through 10000) — the forwarded
event stream is unchanged when the input is truncated to its first 10001
lines; no record on a later line is processed. -/
theorem record_cap :
    ∀ (decode : String → Option NostrEvent) (lines : List String),
      ImportEvents decode lines = ImportEvents decode (lines.take 10001) :=
  fun decode lines => importForward_take decode lines 0

theorem importForward_replicate_blank (decode : String → Option NostrEvent)
    (n i : Nat) (rest : List String) (h : i + n ≤ 10001) :
    importForward decode (List.replicate n "" ++ rest) i =
      importForward decode rest (i + n) := by
  induction n generalizing i with
  | zero => simp
  | succ n ih =>
    have hi : ¬ 10000 < i := by omega
    have hb : trimSpace "" = "" := rfl
    simp only [List.replicate_succ, List.cons_append, importForward, if_neg hi, if_pos hb,
      List.append_eq]
    rw [ih (i + 1) (by omega)]
    congr 1
    omega

/-- C9 (counterexample to the claim as stated): a record on the 10001st
line — line index 10000, beyond the first 10,000 lines — is decoded and
forwarded by the source stage. -/
theorem record_cap_counterexample :
    ImportEvents (fun s => some { zeroEvent with ID := s })
      (List.replicate 10000 "" ++ ["x"]) = [{ zeroEvent with ID := "x" }] := by
  rw [ImportEvents,
    importForward_replicate_blank (fun s => some { zeroEvent with ID := s })
      10000 0 ["x"] (by omega)]
  show importForward (fun s => some { zeroEvent with ID := s }) ["x"] 10000 =
    [{ zeroEvent with ID := "x" }]
  decide

/-- C4 (code evaluation at the failing input): a line that fails to decode
is still forwarded downstream as the zero-valued event — the decode-error
branch of the source loop only logs and has no skip — the zero-valued
record produces entities in the transform stage (a User node, an Event
node and a SIGNED edge), and the run continues with subsequent lines. -/
theorem decode_failure_forwards_zero_event :
    ImportEvents (fun s => if s = "good" then some { zeroEvent with ID := "g" } else none)
      ["@bad@", "good"] = [zeroEvent, { zeroEvent with ID := "g" }] ∧
    (buildSubgraph zeroEvent).map (fun sg => (sg.nodes.length, sg.rels.length)) =
      .ok (2, 1) := by
  exact ⟨by decide, by decide⟩

theorem addNode_nodeCount (s : StructuredSubgraph) (n : Node) (s' : StructuredSubgraph)
    (h : s.AddNode n = .ok s') : s'.NodeCount = s.NodeCount + 1 := by
  rcases addNode_ok s n s' h with ⟨_, _, key, hnodes⟩
  rw [StructuredSubgraph.NodeCount, StructuredSubgraph.NodeCount,
    list_map_length_sum_eq_flatten_length, list_map_length_sum_eq_flatten_length, hnodes]
  rw [(appendBucket_flatten_perm s.nodes key n).length_eq]
  rfl

theorem flushesBeforeAdd_add_succ (k : Nat) (tr : List MergeEv) :
    flushesBeforeAdd (k + 2) (MergeEv.add :: tr) = flushesBeforeAdd (k + 1) tr := rfl

theorem flushesBeforeAdd_add_one (tr : List MergeEv) :
    flushesBeforeAdd 1 (MergeEv.add :: tr) = 0 := rfl

theorem flushesBeforeAdd_flushed (k : Nat) (tr : List MergeEv) :
    flushesBeforeAdd (k + 1) (MergeEv.flushed :: tr) =
      1 + flushesBeforeAdd (k + 1) tr := rfl

theorem mergeLoop_single_trace (T : Nat) (mp : MatchKeys) (ns : List Node)
    (s : StructuredSubgraph) (tr0 : List MergeEv)
    (out : StructuredSubgraph × List MergeEv)
    (h : mergeLoop T mp (ns.map (fun n => [n])) (s, tr0) = .ok out) :
    out.2 = tr0 ++ buildTrace T s.NodeCount ns.length := by
  induction ns generalizing s tr0 with
  | nil =>
    cases h
    simp [buildTrace]
  | cons n ns ih =>
    cases ha : s.AddNode n with
    | error e =>
      have hstep : mergeStep T mp (s, tr0) [n] = .error e := by
        simp [mergeStep, addNodesTraced, ha]
      simp only [List.map_cons, mergeLoop, hstep] at h
      cases h
    | ok s1 =>
      have hcount := addNode_nodeCount s n s1 ha
      by_cases hT : T < s1.NodeCount
      · have hstep : mergeStep T mp (s, tr0) [n] =
            .ok (NewStructuredSubgraph mp, (tr0 ++ [.add]) ++ [.flushed]) := by
          simp [mergeStep, addNodesTraced, ha, hT]
        simp only [List.map_cons, mergeLoop, hstep] at h
        have htr := ih (NewStructuredSubgraph mp) ((tr0 ++ [.add]) ++ [.flushed]) h
        have hT' : T < s.NodeCount + 1 := by omega
        have hbt : buildTrace T s.NodeCount (ns.length + 1) =
            MergeEv.add :: MergeEv.flushed :: buildTrace T 0 ns.length := by
          rw [buildTrace]
          exact if_pos hT'
        rw [htr, List.length_cons, hbt,
          show (NewStructuredSubgraph mp).NodeCount = 0 from rfl]
        simp
      · have hstep : mergeStep T mp (s, tr0) [n] = .ok (s1, tr0 ++ [.add]) := by
          simp [mergeStep, addNodesTraced, ha, hT]
        simp only [List.map_cons, mergeLoop, hstep] at h
        have htr := ih s1 (tr0 ++ [.add]) h
        have hT' : ¬ T < s.NodeCount + 1 := by omega
        have hbt : buildTrace T s.NodeCount (ns.length + 1) =
            MergeEv.add :: buildTrace T (s.NodeCount + 1) ns.length := by
          rw [buildTrace]
          exact if_neg hT'
        rw [htr, List.length_cons, hbt, ← hcount]
        simp

theorem mergeEntities_trace (T : Nat) (mp : MatchKeys) (ns : List Node)
    (s' : StructuredSubgraph) (tr : List MergeEv)
    (h : MergeEntities T mp (ns.map (fun n => [n])) = .ok (s', tr)) :
    tr = buildTrace T 0 ns.length ++ [MergeEv.flushed] := by
  rw [MergeEntities] at h
  cases hl : mergeLoop T mp (ns.map (fun n => [n])) (NewStructuredSubgraph mp, []) with
  | error e => rw [hl] at h; cases h
  | ok acc =>
    rw [hl] at h
    rcases acc with ⟨s1, tr1⟩
    have hpair := Except.ok.inj h
    have htr2 : tr1 ++ [MergeEv.flushed] = tr := congrArg Prod.snd hpair
    have htr := mergeLoop_single_trace T mp ns (NewStructuredSubgraph mp) [] (s1, tr1) hl
    have h0 : (NewStructuredSubgraph mp).NodeCount = 0 := rfl
    rw [h0] at htr
    simp only [List.nil_append] at htr
    rw [← htr2, htr]

theorem flushesBeforeAdd_after_flush (T : Nat) (m : Nat) (hm : 1 ≤ m) :
    flushesBeforeAdd 1 (buildTrace T 0 m ++ [MergeEv.flushed]) = 0 := by
  cases m with
  | zero => omega
  | succ m =>
    by_cases h : T < 0 + 1
    · simp only [buildTrace, if_pos h, List.cons_append]
      exact flushesBeforeAdd_add_one _
    · simp only [buildTrace, if_neg h, List.cons_append]
      exact flushesBeforeAdd_add_one _

theorem flushesBeforeAdd_buildTrace (T : Nat) :
    ∀ (j c m : Nat), c + j = T → j + 2 ≤ m →
      flushesBeforeAdd (j + 2) (buildTrace T c m ++ [MergeEv.flushed]) = 1 := by
  intro j
  induction j with
  | zero =>
    intro c m hc hm
    cases m with
    | zero => omega
    | succ m =>
      have hT : T < c + 1 := by omega
      simp only [buildTrace, if_pos hT, List.cons_append]
      rw [flushesBeforeAdd_add_succ 0, flushesBeforeAdd_flushed 0,
        flushesBeforeAdd_after_flush T m (by omega)]
  | succ j ih =>
    intro c m hc hm
    cases m with
    | zero => omega
    | succ m =>
      have hT : ¬ T < c + 1 := by omega
      simp only [buildTrace, if_neg hT, List.cons_append]
      rw [flushesBeforeAdd_add_succ (j + 1)]
      exact ih (c + 1) m (by omega) (by omega)

/-- C5 (counterexample to the claim as stated): with threshold 1 and a
sequence of three AddNode calls arriving in one drained subgraph, the
accumulator reaches the threshold-crossing count only at the subgraph
boundary, so the third — the (T+2)-th — node is added before any flush:
the number of flushes before the (T+2)-th add is 0, not 1. -/
theorem threshold_trigger_counterexample :
    (MergeEntities 1 NewMatchKeys
        [[NewUserNode "a", NewUserNode "b", NewUserNode "c"]]).map
      (fun p => flushesBeforeAdd 3 p.2) = .ok 0 ∧
    ¬ (MergeEntities 1 NewMatchKeys
        [[NewUserNode "a", NewUserNode "b", NewUserNode "c"]]).map
      (fun p => flushesBeforeAdd 3 p.2) = .ok 1 := by
  exact ⟨by decide, by decide⟩

/-- C5 (amended): the flush check runs at subgraph boundaries; when every
drained subgraph contributes exactly one node — so a check runs between
consecutive AddNode calls — accumulating T+1 nodes triggers exactly one
flush (the accumulator being replaced by an empty one) before the
(T+2)-th node is added. -/
theorem threshold_trigger :
    ∀ (T : Nat) (mp : MatchKeys) (ns : List Node) (s' : StructuredSubgraph)
      (tr : List MergeEv),
      MergeEntities T mp (ns.map (fun n => [n])) = .ok (s', tr) →
      T + 2 ≤ ns.length →
      flushesBeforeAdd (T + 2) tr = 1 := by
  intro T mp ns s' tr h hlen
  rw [mergeEntities_trace T mp ns s' tr h]
  exact flushesBeforeAdd_buildTrace T T 0 ns.length (by omega) hlen

/-- Witness for C5's amended theorem at threshold 0 and two single-node
subgraphs. -/
theorem threshold_trigger_witness :
    flushesBeforeAdd 2
      [MergeEv.add, MergeEv.flushed, MergeEv.add, MergeEv.flushed, MergeEv.flushed] = 1 :=
  threshold_trigger 0 NewMatchKeys [NewUserNode "a", NewUserNode "b"]
    (NewStructuredSubgraph NewMatchKeys)
    [MergeEv.add, MergeEv.flushed, MergeEv.add, MergeEv.flushed, MergeEv.flushed]
    (by decide) (by decide)

theorem oalt_absorb {α : Type} (a b : Option α) : oalt (oalt a b) a = oalt a b := by
  cases a <;> cases b <;> rfl

theorem alookup_append {κ β : Type} [DecidableEq κ] (l1 l2 : List (κ × β)) (k : κ) :
    alookup (l1 ++ l2) k = oalt (alookup l1 k) (alookup l2 k) := by
  induction l1 with
  | nil => rfl
  | cons kv l1 ih =>
    rcases kv with ⟨k', v⟩
    by_cases h : k' = k
    · simp [alookup, h, oalt]
    · simp [alookup, h, ih]

theorem aupdate_length {κ β : Type} [DecidableEq κ] (m : List (κ × β)) (k : κ)
    (f : β → β) : (aupdate m k f).length = m.length := by
  induction m with
  | nil => rfl
  | cons kv m ih =>
    rcases kv with ⟨k', v⟩
    by_cases h : k' = k
    · simp [aupdate, h]
    · simp [aupdate, h, ih]

theorem alookup_aupdate_map {κ β : Type} [DecidableEq κ] (m : List (κ × β)) (k : κ)
    (f : β → β) : alookup (aupdate m k f) k = (alookup m k).map f := by
  induction m with
  | nil => rfl
  | cons kv m ih =>
    rcases kv with ⟨k', v⟩
    by_cases h : k' = k
    · simp [aupdate, alookup, h]
    · simp [aupdate, alookup, h, ih]

theorem alookup_aupdate_other {κ β : Type} [DecidableEq κ] (m : List (κ × β))
    (k key : κ) (f : β → β) (h : ¬ key = k) :
    alookup (aupdate m k f) key = alookup m key := by
  induction m with
  | nil => rfl
  | cons kv m ih =>
    rcases kv with ⟨k', v⟩
    by_cases hk : k' = k
    · have hkk : ¬ k = key := fun he => h he.symm
      simp [aupdate, alookup, hk, hkk]
    · by_cases hky : k' = key
      · simp [aupdate, alookup, hk, hky, h]
      · simp [aupdate, alookup, hk, hky, ih]

theorem alookup_filter {κ β : Type} [DecidableEq κ] (p : κ × β → Bool)
    (l : List (κ × β)) (k : κ) (h : ∀ v, p (k, v) = true) :
    alookup (l.filter p) k = alookup l k := by
  induction l with
  | nil => rfl
  | cons kv l ih =>
    rcases kv with ⟨k', v⟩
    by_cases hk : k' = k
    · subst hk
      simp [List.filter_cons, h v, alookup]
    · cases hp : p (k', v)
      · simp [List.filter_cons, hp, alookup, hk, ih]
      · simp [List.filter_cons, hp, alookup, hk, ih]

theorem punion_alookup (old incoming : Properties) (k : String) :
    alookup (punion old incoming) k = oalt (alookup incoming k) (alookup old k) := by
  rw [punion, alookup_append]
  cases hi : alookup incoming k with
  | some v => simp [oalt]
  | none =>
    simp only [oalt]
    exact alookup_filter _ old k (fun v => by simp [hi])

theorem mergeOne_lookup_self (mk L : List String) (s : Store) (q : Properties) :
    alookup (mergeOneNode mk L s q) (keyOf mk L q) =
      absorbQ (alookup s (keyOf mk L q)) q := by
  simp only [mergeOneNode, keyOf]
  cases hm : alookup s (L, nodeSig mk q) with
  | some p =>
    rw [alookup_aupdate_map, hm]
    rfl
  | none =>
    rw [alookup_append, hm]
    simp [alookup, oalt, absorbQ]

theorem mergeOne_lookup_other (mk L : List String) (s : Store) (q : Properties)
    (key : StoreKey) (h : ¬ keyOf mk L q = key) :
    alookup (mergeOneNode mk L s q) key = alookup s key := by
  simp only [mergeOneNode, keyOf] at *
  cases hm : alookup s (L, nodeSig mk q) with
  | some p => exact alookup_aupdate_other s (L, nodeSig mk q) key _ (fun he => h he.symm)
  | none =>
    rw [alookup_append]
    have hk : ¬ ((L, nodeSig mk q) : StoreKey) = key := h
    simp [alookup, hk, oalt_none_right]

theorem flush_lookup (mk L : List String) (b : List Properties) (s : Store)
    (key : StoreKey) :
    alookup (flushNodes mk L s b) key =
      (b.filter (fun q => decide (keyOf mk L q = key))).foldl absorbQ (alookup s key) := by
  induction b generalizing s with
  | nil => rfl
  | cons q b ih =>
    have hstep : flushNodes mk L s (q :: b) = flushNodes mk L (mergeOneNode mk L s q) b :=
      rfl
    rw [hstep, ih]
    by_cases hk : keyOf mk L q = key
    · subst hk
      have hd : (decide (keyOf mk L q = keyOf mk L q)) = true := by simp
      rw [List.filter_cons, hd, if_pos rfl, List.foldl_cons, mergeOne_lookup_self]
    · have hd : (decide (keyOf mk L q = key)) = false := by simp [hk]
      rw [List.filter_cons, hd]
      simp only [Bool.false_eq_true, if_false]
      rw [mergeOne_lookup_other mk L s q key hk]

theorem foldl_absorbQ_some (qs : List Properties) (x : Properties) :
    ∃ y, qs.foldl absorbQ (some x) = some y := by
  induction qs generalizing x with
  | nil => exact ⟨x, rfl⟩
  | cons q qs ih =>
    rw [List.foldl_cons]
    exact ih (punion x q)

theorem foldl_absorbQ_isSome (base : Option Properties) (qs : List Properties)
    (h : qs ≠ []) : (qs.foldl absorbQ base).isSome = true := by
  cases qs with
  | nil => cases h rfl
  | cons q qs =>
    rw [List.foldl_cons]
    cases base with
    | none =>
      rcases foldl_absorbQ_some qs q with ⟨y, hy⟩
      rw [show absorbQ none q = some q from rfl, hy]
      rfl
    | some p =>
      rcases foldl_absorbQ_some qs (punion p q) with ⟨y, hy⟩
      rw [show absorbQ (some p) q = some (punion p q) from rfl, hy]
      rfl

theorem flush_hasMatch (mk L : List String) (b : List Properties) (s : Store)
    (q : Properties) (hq : q ∈ b) :
    (alookup (flushNodes mk L s b) (keyOf mk L q)).isSome = true := by
  rw [flush_lookup]
  have hmem : q ∈ b.filter (fun q' => decide (keyOf mk L q' = keyOf mk L q)) :=
    List.mem_filter.mpr ⟨hq, by simp⟩
  exact foldl_absorbQ_isSome _ _ (List.ne_nil_of_mem hmem)

theorem mergeOne_length_of_some (mk L : List String) (s : Store) (q : Properties)
    (h : (alookup s (keyOf mk L q)).isSome = true) :
    (mergeOneNode mk L s q).length = s.length := by
  simp only [keyOf] at h
  simp only [mergeOneNode]
  cases hm : alookup s (L, nodeSig mk q) with
  | none => rw [hm] at h; cases h
  | some p => simp [aupdate_length]

theorem mergeOne_preserves_isSome (mk L : List String) (s : Store) (q : Properties)
    (key : StoreKey) (h : (alookup s key).isSome = true) :
    (alookup (mergeOneNode mk L s q) key).isSome = true := by
  by_cases hk : keyOf mk L q = key
  · rw [← hk, mergeOne_lookup_self]
    rfl
  · rw [mergeOne_lookup_other mk L s q key hk]
    exact h

theorem flush_length_of_all_match (mk L : List String) (b : List Properties) (s : Store)
    (h : ∀ q ∈ b, (alookup s (keyOf mk L q)).isSome = true) :
    (flushNodes mk L s b).length = s.length := by
  induction b generalizing s with
  | nil => rfl
  | cons q b ih =>
    have hstep : flushNodes mk L s (q :: b) = flushNodes mk L (mergeOneNode mk L s q) b :=
      rfl
    rw [hstep]
    rw [ih (mergeOneNode mk L s q)
      (fun q' hq' => mergeOne_preserves_isSome mk L s q _
        (h q' (List.mem_cons_of_mem q hq')))]
    exact mergeOne_length_of_some mk L s q (h q (List.mem_cons_self q b))

theorem absorbQ_map_lookup (k : String) (base : Option Properties) (q : Properties) :
    (absorbQ base q).map (fun p => alookup p k) =
      some (oalt (alookup q k)
        ((base.map (fun p => alookup p k)).getD none)) := by
  cases base with
  | none => simp [absorbQ, oalt_none_right]
  | some p => simp [absorbQ, punion_alookup]

theorem foldl_absorbQ_map (k : String) (qs : List Properties) (base : Option Properties) :
    (qs.foldl absorbQ base).map (fun p => alookup p k) =
      qs.foldl (fun r q => some (oalt (alookup q k) (r.getD none)))
        (base.map (fun p => alookup p k)) := by
  induction qs generalizing base with
  | nil => rfl
  | cons q qs ih =>
    rw [List.foldl_cons, List.foldl_cons, ih, absorbQ_map_lookup]

theorem foldl_g_some (k : String) (qs : List Properties) (x : Option Value) :
    qs.foldl (fun r q => some (oalt (alookup q k) (r.getD none))) (some x) =
      some (qs.foldl (fun w q => oalt (alookup q k) w) x) := by
  induction qs generalizing x with
  | nil => rfl
  | cons q qs ih =>
    rw [List.foldl_cons, List.foldl_cons]
    exact ih (oalt (alookup q k) x)

theorem foldl_oalt_shift (k : String) (qs : List Properties) (w : Option Value) :
    qs.foldl (fun w q => oalt (alookup q k) w) w =
      oalt (qs.foldl (fun w q => oalt (alookup q k) w) none) w := by
  induction qs generalizing w with
  | nil => rfl
  | cons q qs ih =>
    rw [List.foldl_cons, List.foldl_cons]
    rw [ih (oalt (alookup q k) w), ih (oalt (alookup q k) none)]
    rw [oalt_none_right, oalt_assoc]

theorem foldl_oalt_idem (k : String) (qs : List Properties) (w : Option Value) :
    qs.foldl (fun w q => oalt (alookup q k) w)
      (qs.foldl (fun w q => oalt (alookup q k) w) w) =
      qs.foldl (fun w q => oalt (alookup q k) w) w := by
  rw [foldl_oalt_shift k qs (qs.foldl (fun w q => oalt (alookup q k) w) w),
    foldl_oalt_shift k qs w]
  rw [← oalt_assoc, oalt_idem]

theorem foldl_g_idem (k : String) (qs : List Properties) (r : Option (Option Value)) :
    qs.foldl (fun r q => some (oalt (alookup q k) (r.getD none)))
      (qs.foldl (fun r q => some (oalt (alookup q k) (r.getD none))) r) =
      qs.foldl (fun r q => some (oalt (alookup q k) (r.getD none))) r := by
  cases qs with
  | nil => rfl
  | cons q qs =>
    have h1 : (q :: qs).foldl (fun r q => some (oalt (alookup q k) (r.getD none))) r =
        some ((q :: qs).foldl (fun w q => oalt (alookup q k) w) (r.getD none)) := by
      rw [List.foldl_cons, List.foldl_cons]
      exact foldl_g_some k qs (oalt (alookup q k) (r.getD none))
    rw [h1, foldl_g_some k (q :: qs)
      ((q :: qs).foldl (fun w q => oalt (alookup q k) w) (r.getD none)),
      foldl_oalt_idem]

/-- C1: node ingestion is idempotent — flushing the same node bucket twice
against any store yields a store with the same node count as flushing it
once (no duplicate nodes), the same set of occupied store keys, and, for
every store key and property key, the same property value: the properties
equal the incoming-wins union of the properties written by both flushes. -/
theorem node_flush_idempotent :
    ∀ (matchKeys labels : List String) (batch : List Properties) (store : Store),
      (flushNodes matchKeys labels (flushNodes matchKeys labels store batch)
          batch).length =
        (flushNodes matchKeys labels store batch).length ∧
      (∀ key : StoreKey,
        (alookup (flushNodes matchKeys labels
            (flushNodes matchKeys labels store batch) batch) key).isSome =
          (alookup (flushNodes matchKeys labels store batch) key).isSome) ∧
      (∀ (key : StoreKey) (k : String),
        (alookup (flushNodes matchKeys labels
            (flushNodes matchKeys labels store batch) batch) key).map
            (fun p => alookup p k) =
          (alookup (flushNodes matchKeys labels store batch) key).map
            (fun p => alookup p k)) := by
  intro mk L b s
  refine ⟨?_, ?_, ?_⟩
  · exact flush_length_of_all_match mk L b (flushNodes mk L s b)
      (fun q hq => flush_hasMatch mk L b s q hq)
  · intro key
    rw [flush_lookup mk L b (flushNodes mk L s b) key, flush_lookup mk L b s key]
    cases hf : b.filter (fun q => decide (keyOf mk L q = key)) with
    | nil => rfl
    | cons q qs =>
      rw [foldl_absorbQ_isSome _ _ (by simp), foldl_absorbQ_isSome _ _ (by simp)]
  · intro key k
    rw [flush_lookup mk L b (flushNodes mk L s b) key, flush_lookup mk L b s key]
    rw [foldl_absorbQ_map, foldl_absorbQ_map]
    exact foldl_g_idem k _ _

end NeoStr
